import Mathlib

/-!
Verification of the scikit-metrics library (classification and regression
metrics) against its natural-language specification.

The Python sources are embedded shallowly:

* floating-point values are modelled by exact rationals; a value of type
  `NFloat = Option ℚ` is `none` exactly when the float computation produces
  a non-finite value (NaN or Inf), which in this code base arises only from
  division by zero and then propagates through sums, scalar multiples and
  further divisions (IEEE arithmetic never turns such a non-finite
  intermediate back into a finite one in the expressions used here);
* fallible functions return `Except`; each error constructor names the
  Python exception raised at the corresponding guard;
* numpy arrays are lists (of lists); a 2-D array of width `p` is a list of
  rows each of length `p`.
-/

/-- Model of a float value: `some q` is the finite value `q`, `none` is a
non-finite float (NaN or Inf). -/
abbrev NFloat := Option ℚ

/-- Division of finite floats: division by zero yields a non-finite value
(NaN for 0/0, Inf otherwise), modelled as `none`. -/
def nfDiv (a b : ℚ) : NFloat := if b = 0 then none else some (a / b)

/-- Addition on float values: a non-finite operand makes the sum
non-finite (the summands arising in this code base are NaN or +Inf, and
sums of those stay non-finite). -/
def nfAdd : NFloat → NFloat → NFloat
  | some a, some b => some (a + b)
  | _, _ => none

/-- Sum of a list of float values, non-finite as soon as one term is. -/
def nfSum (l : List NFloat) : NFloat := l.foldr nfAdd (some 0)

/-- Multiplication of a float value by a finite scalar; NaN and Inf are
absorbing (w * NaN = NaN, and w * Inf is Inf, -Inf or NaN, all
non-finite). -/
def nfSmul (w : ℚ) : NFloat → NFloat
  | some a => some (w * a)
  | none => none

/-- Division of a float value by a finite scalar. -/
def nfDivQ : NFloat → ℚ → NFloat
  | some a, c => if c = 0 then none else some (a / c)
  | none, _ => none

/-- Errors raised by `relative_mean_absolute_error` (src/skmetrics/
regression.py): a numpy broadcast/shape error when the argument lengths
differ, and the ZeroDivisionError that `np.average` raises when the
weights sum to zero. -/
inductive RegErr
  | shapeMismatch
  | zeroDivisionError
deriving DecidableEq

/-- Elementwise relative deviations `np.abs(y_pred - y_true) /
np.abs(y_true)` from src/skmetrics/regression.py line 31. -/
def relDiffs (yt yp : List ℚ) : List NFloat :=
  (yt.zip yp).map (fun tp => nfDiv |tp.2 - tp.1| |tp.1|)

/-- Embedding of `relative_mean_absolute_error(y_true, y_pred,
sample_weight)` (src/skmetrics/regression.py lines 31-33):
`diff = np.abs(y_pred - y_true) / np.abs(y_true)` followed by
`np.average(diff, weights=sample_weight, axis=0)`.  `np.average` checks
the weight shape, then raises ZeroDivisionError when the weights sum to
zero, and otherwise returns `sum(w*d)/sum(w)`; without weights it returns
the plain mean (NaN for an empty input, modelled by the zero-length
division). -/
def relative_mean_absolute_error (yt yp : List ℚ) (sample_weight : Option (List ℚ)) :
    Except RegErr NFloat :=
  if yt.length ≠ yp.length then .error .shapeMismatch
  else
    match sample_weight with
    | none => .ok (nfDivQ (nfSum (relDiffs yt yp)) (yt.length : ℚ))
    | some ws =>
      if ws.length ≠ yt.length then .error .shapeMismatch
      else if ws.sum = 0 then .error .zeroDivisionError
      else .ok (nfDivQ (nfSum ((ws.zip (relDiffs yt yp)).map (fun wd => nfSmul wd.1 wd.2))) ws.sum)

lemma nfAdd_none_right (a : NFloat) : nfAdd a none = none := by
  cases a <;> rfl

lemma nfSum_cons (d : NFloat) (l : List NFloat) : nfSum (d :: l) = nfAdd d (nfSum l) := rfl

lemma nfSum_eq_none_of_mem {l : List NFloat} (h : none ∈ l) : nfSum l = none := by
  induction l with
  | nil => cases h
  | cons d t ih =>
    rcases List.mem_cons.mp h with h0 | h1
    · rw [nfSum_cons, ← h0]; rfl
    · rw [nfSum_cons, ih h1, nfAdd_none_right]

lemma nfSum_map_smul (w : ℚ) (l : List NFloat) :
    nfSum (l.map (nfSmul w)) = nfSmul w (nfSum l) := by
  induction l with
  | nil => simp [nfSum, nfSmul]
  | cons d t ih =>
    rw [List.map_cons, nfSum_cons, nfSum_cons, ih]
    cases d with
    | none => rfl
    | some a =>
      cases h : nfSum t with
      | none => rfl
      | some b => simp [nfSmul, nfAdd, mul_add]

lemma replicate_zip_smul (w : ℚ) (l : List NFloat) :
    ((List.replicate l.length w).zip l).map (fun wd => nfSmul wd.1 wd.2) = l.map (nfSmul w) := by
  induction l with
  | nil => rfl
  | cons d t ih => simpa [List.replicate] using ih

lemma relDiffs_length (yt yp : List ℚ) (hl : yt.length = yp.length) :
    (relDiffs yt yp).length = yt.length := by
  simp [relDiffs, hl]

lemma mem_zip_left_of_length (yt yp : List ℚ) (hl : yt.length = yp.length) (a : ℚ)
    (ha : a ∈ yt) : ∃ b, (a, b) ∈ yt.zip yp := by
  induction yt generalizing yp with
  | nil => cases ha
  | cons x t ih =>
    cases yp with
    | nil => simp at hl
    | cons y s =>
      rcases List.mem_cons.mp ha with h | h
      · exact ⟨y, by simp [h]⟩
      · rcases ih s (by simpa using hl) h with ⟨b, hb⟩
        exact ⟨b, List.mem_cons_of_mem _ hb⟩

/-- Claim C8: if some `y_true` entry is exactly zero,
`relative_mean_absolute_error` does not raise: it returns a non-finite
value propagated from the division; and when every `y_true` entry is
non-zero, the elementwise division produces only finite values. -/
theorem rmae_zero_true_entry (yt yp : List ℚ) (hl : yt.length = yp.length) :
    ((0 : ℚ) ∈ yt → relative_mean_absolute_error yt yp none = .ok none) ∧
    ((∀ t ∈ yt, t ≠ 0) → ∀ d ∈ relDiffs yt yp, d.isSome) := by
  constructor
  · intro h0
    have hmem : (none : NFloat) ∈ relDiffs yt yp := by
      rcases mem_zip_left_of_length yt yp hl 0 h0 with ⟨b, hb⟩
      exact List.mem_map.mpr ⟨(0, b), hb, by simp [nfDiv]⟩
    have hnone : nfSum (relDiffs yt yp) = none := nfSum_eq_none_of_mem hmem
    simp [relative_mean_absolute_error, hl, hnone, nfDivQ]
  · intro hnz d hd
    rcases List.mem_map.mp hd with ⟨tp, htp, hdef⟩
    have ht : tp.1 ∈ yt := (List.of_mem_zip htp).1
    have : |tp.1| ≠ 0 := abs_ne_zero.mpr (hnz tp.1 ht)
    rw [← hdef]
    simp [nfDiv, this]

/-- Witness for C8 at concrete inputs: `y_true = [0,1]` contains a zero and
the call returns the non-finite marker; `y_true = [2,3]` has no zero and
every elementwise quotient is finite. -/
theorem rmae_zero_true_entry_witness :
    relative_mean_absolute_error [0, 1] [1, 1] none = .ok none ∧
    ∀ d ∈ relDiffs [2, 3] [1, 1], d.isSome :=
  ⟨(rmae_zero_true_entry [0, 1] [1, 1] rfl).1 (by decide),
   (rmae_zero_true_entry [2, 3] [1, 1] rfl).2 (by decide)⟩

/-- Claim C9: a sample_weight vector all of whose entries are the same
positive value gives exactly the unweighted average. -/
theorem rmae_const_weight (yt yp : List ℚ) (w : ℚ) (hl : yt.length = yp.length)
    (hne : yt ≠ []) (hw : 0 < w) :
    relative_mean_absolute_error yt yp (some (List.replicate yt.length w)) =
      relative_mean_absolute_error yt yp none := by
  have hn : yt.length ≠ 0 := fun h => hne (List.length_eq_zero.mp h)
  have hnq : (yt.length : ℚ) ≠ 0 := Nat.cast_ne_zero.mpr hn
  have hwne : w ≠ 0 := ne_of_gt hw
  have hsum : (List.replicate yt.length w).sum = (yt.length : ℚ) * w := by
    rw [List.sum_replicate, nsmul_eq_mul]
  have hsumne : (yt.length : ℚ) * w ≠ 0 := mul_ne_zero hnq hwne
  have hrep : List.replicate yt.length w = List.replicate (relDiffs yt yp).length w := by
    rw [relDiffs_length yt yp hl]
  simp only [relative_mean_absolute_error]
  rw [if_neg (not_ne_iff.mpr hl), if_neg (not_ne_iff.mpr hl),
    if_neg (not_ne_iff.mpr (List.length_replicate _ _)),
    hsum, if_neg hsumne, hrep, replicate_zip_smul, nfSum_map_smul]
  cases hs : nfSum (relDiffs yt yp) with
  | none => rfl
  | some a =>
    simp only [nfSmul, nfDivQ, if_neg hsumne, if_neg hnq]
    congr 2
    field_simp
    ring

/-- Witness for C9: with `y_true=[1,2]`, `y_pred=[2,4]` and constant weight
vector `[3,3]`, the weighted call equals the unweighted one. -/
theorem rmae_const_weight_witness :
    relative_mean_absolute_error [1, 2] [2, 4] (some [3, 3]) =
      relative_mean_absolute_error [1, 2] [2, 4] none :=
  rmae_const_weight [1, 2] [2, 4] 3 rfl (by decide) (by norm_num)

/-- Claim C10: when the sample_weight entries sum to zero, the
weighted-averaging step (`np.average`) raises ZeroDivisionError and no
value is returned. -/
theorem rmae_weights_sum_zero (yt yp ws : List ℚ) (hl : yt.length = yp.length)
    (hwl : ws.length = yt.length) (hs : ws.sum = 0) :
    relative_mean_absolute_error yt yp (some ws) = .error .zeroDivisionError := by
  simp only [relative_mean_absolute_error]
  rw [if_neg (not_ne_iff.mpr hl), if_neg (not_ne_iff.mpr hwl), if_pos hs]

/-- Witness for C10: all-zero weights (which are non-negative) make the
call fail with the averaging error. -/
theorem rmae_weights_sum_zero_witness :
    relative_mean_absolute_error [1, 2] [0, 0] (some [0, 0]) = .error .zeroDivisionError :=
  rmae_weights_sum_zero [1, 2] [0, 0] [0, 0] rfl rfl (by simp)

/-- Model of `np.unique`: the sorted list of distinct values of a label
vector. -/
def uniqueSorted (l : List ℤ) : List ℤ := List.insertionSort (fun a b => a ≤ b) l.dedup

/-- Number of samples whose true label is `a` and whose predicted label is
`b`, the raw cell count of the contingency matrix built by
`sklearn.metrics.cluster.supervised.contingency_matrix`. -/
def pairCount (yt yp : List ℤ) (a b : ℤ) : ℕ := (yt.zip yp).count (a, b)

/-- Entry `(i, j)` of the dense contingency matrix used by `g_score`
(src/skmetrics/classification.py line 40): rows are indexed by the sorted
distinct true labels, columns by the sorted distinct predicted labels,
and `eps` (0 when unset) is added to every entry. -/
def contingency_matrix (yt yp : List ℤ) (eps : ℚ) (i j : ℕ) : ℚ :=
  (pairCount yt yp ((uniqueSorted yt).getD i 0) ((uniqueSorted yp).getD j 0) : ℚ) + eps

/-- Row sum `c.sum(axis=1)[i]` of the contingency matrix. -/
def contRowSum (yt yp : List ℤ) (eps : ℚ) (i : ℕ) : ℚ :=
  ∑ j ∈ Finset.range (uniqueSorted yp).length, contingency_matrix yt yp eps i j

/-- Product of all entries of the array
`d.reshape([len(d), 1]) / c.sum(axis=1).ravel()` built at
src/skmetrics/classification.py line 42: numpy broadcasting divides the
column vector of diagonal entries (length `min(R, K)`, where the
contingency matrix is `R x K`) by the length-`R` row-sum vector, giving a
`min(R, K) x R` matrix of quotients, and `np.prod` then multiplies all of
its entries. -/
def gProd (yt yp : List ℤ) (eps : ℚ) : ℚ :=
  ∏ i ∈ Finset.range (min (uniqueSorted yt).length (uniqueSorted yp).length),
    ∏ j ∈ Finset.range (uniqueSorted yt).length,
      (contingency_matrix yt yp eps i i / contRowSum yt yp eps j)

/-- Errors raised by `g_score`: the shape check of `check_clusterings`,
the ValueError of `contingency_matrix` when `eps` is combined with
`sparse=True` (the ConfigurationError of the spec), and the
ZeroDivisionError of `1.0 / c.shape[0]` on an empty input. -/
inductive GsErr
  | shapeError
  | configurationError
  | zeroDivisionError
deriving DecidableEq

/-- Embedding of `g_score(y_true, y_pred, eps, sparse)`
(src/skmetrics/classification.py lines 15-44).  `check_clusterings`
validates the shapes, `contingency_matrix` rejects `eps` together with
`sparse=True`, and the result is `np.prod(true_rates) ** (1.0 / c.shape[0])`
with `true_rates` the broadcast quotient array described at `gProd`.  The
sparse and dense representations produce the same numbers, so the sparse
flag only matters through the ValueError guard. -/
noncomputable def g_score (yt yp : List ℤ) (eps : Option ℚ) (sparse : Bool) :
    Except GsErr ℝ :=
  if yt.length ≠ yp.length then .error .shapeError
  else if eps.isSome && sparse then .error .configurationError
  else if (uniqueSorted yt).length = 0 then .error .zeroDivisionError
  else .ok (((gProd yt yp (eps.getD 0) : ℚ) : ℝ) ^ ((1 : ℝ) / (uniqueSorted yt).length))

/-- Statement of claim C1's formula (the spec side of the comparison,
following the words of the spec): the geometric mean
`(prod_i diag_i / rowsum_i) ** (1/C)` of the per-class true rates, with
`C` the number of rows of the contingency matrix. -/
noncomputable def gScoreSpec (yt yp : List ℤ) : ℝ :=
  ((∏ i ∈ Finset.range (uniqueSorted yt).length,
      (contingency_matrix yt yp 0 i i / contRowSum yt yp 0 i) : ℚ) : ℝ) ^
    ((1 : ℝ) / (uniqueSorted yt).length)

lemma uniqueSorted_perm (l : List ℤ) : (uniqueSorted l).Perm l.dedup :=
  List.perm_insertionSort _ l.dedup

lemma uniqueSorted_nodup (l : List ℤ) : (uniqueSorted l).Nodup :=
  ((uniqueSorted_perm l).nodup_iff).mpr l.nodup_dedup

lemma mem_uniqueSorted {a : ℤ} {l : List ℤ} : a ∈ uniqueSorted l ↔ a ∈ l := by
  rw [(uniqueSorted_perm l).mem_iff, List.mem_dedup]

lemma uniqueSorted_length_ne_zero {l : List ℤ} (h : l ≠ []) :
    (uniqueSorted l).length ≠ 0 := by
  intro h0
  have : l.dedup.length = 0 := by rw [← (uniqueSorted_perm l).length_eq]; exact h0
  exact h ((List.dedup_eq_nil l).mp (List.length_eq_zero.mp this))

lemma count_zip_self (y : List ℤ) (a b : ℤ) :
    (y.zip y).count (a, b) = if a = b then y.count a else 0 := by
  induction y with
  | nil => simp
  | cons x t ih =>
    rw [List.zip_cons_cons, List.count_cons, ih]
    by_cases hab : a = b
    · subst hab
      by_cases hx : a = x
      · subst hx
        simp [List.count_cons]
      · simp [List.count_cons, hx, Ne.symm hx, Prod.ext_iff]
    · simp only [if_neg hab, beq_iff_eq, Prod.mk.injEq, zero_add]
      rw [if_neg]
      rintro ⟨h1, h2⟩
      exact hab (by omega)

lemma getD_mem_of_lt (l : List ℤ) (i : ℕ) (hi : i < l.length) : l.getD i 0 ∈ l := by
  rw [List.getD_eq_getElem l 0 hi]
  exact List.getElem_mem hi

lemma uniqueSorted_getD_inj (y : List ℤ) (i j : ℕ)
    (hi : i < (uniqueSorted y).length) (hj : j < (uniqueSorted y).length) (hij : i ≠ j) :
    (uniqueSorted y).getD i 0 ≠ (uniqueSorted y).getD j 0 := by
  rw [List.getD_eq_getElem _ 0 hi, List.getD_eq_getElem _ 0 hj]
  intro h
  exact hij ((List.Nodup.getElem_inj_iff (uniqueSorted_nodup y)).mp h)

lemma contingency_diag_self (y : List ℤ) (i : ℕ) :
    contingency_matrix y y 0 i i = (y.count ((uniqueSorted y).getD i 0) : ℚ) := by
  unfold contingency_matrix pairCount
  rw [count_zip_self]
  simp

lemma contRowSum_self (y : List ℤ) (i : ℕ) (hi : i < (uniqueSorted y).length) :
    contRowSum y y 0 i = (y.count ((uniqueSorted y).getD i 0) : ℚ) := by
  unfold contRowSum
  rw [Finset.sum_eq_single i]
  · exact contingency_diag_self y i
  · intro j hj hne
    unfold contingency_matrix pairCount
    rw [count_zip_self,
      if_neg (uniqueSorted_getD_inj y i j hi (Finset.mem_range.mp hj) (Ne.symm hne))]
    simp
  · intro h
    exact absurd (Finset.mem_range.mpr hi) h

lemma gProd_self (y : List ℤ) : gProd y y 0 = 1 := by
  unfold gProd
  rw [min_self]
  set R := (uniqueSorted y).length with hR
  set f : ℕ → ℚ := fun i => (y.count ((uniqueSorted y).getD i 0) : ℚ) with hf
  have hstep : ∏ i ∈ Finset.range R, ∏ j ∈ Finset.range R,
      (contingency_matrix y y 0 i i / contRowSum y y 0 j) =
      ∏ i ∈ Finset.range R, ∏ j ∈ Finset.range R, (f i / f j) := by
    refine Finset.prod_congr rfl (fun i hi => Finset.prod_congr rfl (fun j hj => ?_))
    rw [contingency_diag_self, contRowSum_self y j (Finset.mem_range.mp hj)]
  rw [hstep]
  have hfne : ∀ i ∈ Finset.range R, f i ≠ 0 := by
    intro i hi
    have hmem : (uniqueSorted y).getD i 0 ∈ y :=
      mem_uniqueSorted.mp (getD_mem_of_lt _ i (Finset.mem_range.mp hi))
    exact Nat.cast_ne_zero.mpr (Nat.pos_iff_ne_zero.mp (List.count_pos_iff.mpr hmem))
  have hP : (∏ j ∈ Finset.range R, f j) ≠ 0 := Finset.prod_ne_zero_iff.mpr hfne
  calc ∏ i ∈ Finset.range R, ∏ j ∈ Finset.range R, (f i / f j)
      = ∏ i ∈ Finset.range R, ((f i) ^ R / ∏ j ∈ Finset.range R, f j) := by
        refine Finset.prod_congr rfl (fun i hi => ?_)
        rw [Finset.prod_div_distrib, Finset.prod_const, Finset.card_range]
    _ = (∏ i ∈ Finset.range R, f i) ^ R / (∏ j ∈ Finset.range R, f j) ^ R := by
        rw [Finset.prod_div_distrib, Finset.prod_pow, Finset.prod_const, Finset.card_range]
    _ = 1 := div_self (pow_ne_zero _ hP)

/-- Claim C6: perfect classification scores 1: for every non-empty label
vector `y`, `g_score(y, y)` with default options returns exactly 1 (all
contingency mass is on the diagonal, so the broadcast quotient array
multiplies out to 1 and the real power keeps it at 1). -/
theorem g_score_perfect (y : List ℤ) (h : y ≠ []) :
    g_score y y none false = .ok 1 := by
  unfold g_score
  rw [if_neg (not_ne_iff.mpr rfl), if_neg (by simp),
    if_neg (uniqueSorted_length_ne_zero h)]
  rw [show (none : Option ℚ).getD 0 = 0 from rfl, gProd_self, Rat.cast_one, Real.one_rpow]

/-- Witness for C6, the scenario from the spec: `y_true = y_pred =
[0,0,1,1]` gives exactly 1. -/
theorem g_score_perfect_witness :
    g_score [0, 0, 1, 1] [0, 0, 1, 1] none false = .ok 1 :=
  g_score_perfect [0, 0, 1, 1] (by simp)

/-- Claim C5: for equal-length label vectors, a float `eps` together with
`sparse=True` makes `g_score` fail with the ConfigurationError
(the ValueError of `contingency_matrix`), while with `sparse=False` no
choice of `eps` can produce that error. -/
theorem g_score_eps_sparse_exclusive :
    (∀ (yt yp : List ℤ) (e : ℚ), yt.length = yp.length →
      g_score yt yp (some e) true = .error .configurationError) ∧
    (∀ (yt yp : List ℤ) (eps : Option ℚ),
      g_score yt yp eps false ≠ .error .configurationError) := by
  constructor
  · intro yt yp e hl
    unfold g_score
    rw [if_neg (not_ne_iff.mpr hl), if_pos (by simp)]
  · intro yt yp eps
    unfold g_score
    split
    · simp
    · rw [if_neg (by simp)]
      split
      · simp
      · simp

/-- Witness for C5 at a concrete input. -/
theorem g_score_eps_sparse_exclusive_witness :
    g_score [0, 1] [1, 0] (some (1 / 2)) true = .error .configurationError ∧
    g_score [0, 1] [1, 0] (some (1 / 2)) false ≠ .error .configurationError :=
  ⟨g_score_eps_sparse_exclusive.1 [0, 1] [1, 0] (1 / 2) rfl,
   g_score_eps_sparse_exclusive.2 [0, 1] [1, 0] (some (1 / 2))⟩

lemma uniqueSorted_001 : uniqueSorted [0, 0, 1] = [0, 1] := by decide

lemma uniqueSorted_011 : uniqueSorted [0, 1, 1] = [0, 1] := by decide

lemma gProd_bug_input : gProd [0, 0, 1] [0, 1, 1] 0 = 1 / 4 := by
  simp [gProd, uniqueSorted_001, uniqueSorted_011, contRowSum, contingency_matrix, pairCount,
    Finset.prod_range_succ, Finset.sum_range_succ, List.count_cons]
  norm_num [Prod.ext_iff]

lemma one_quarter_rpow_half : ((1 / 4 : ℝ)) ^ ((1 : ℝ) / 2) = 1 / 2 := by
  rw [show (1 / 4 : ℝ) = (1 / 2 : ℝ) ^ (2 : ℕ) by norm_num,
    ← Real.rpow_natCast (1 / 2 : ℝ) 2,
    ← Real.rpow_mul (by norm_num : (0 : ℝ) ≤ 1 / 2)]
  norm_num

lemma half_lt_half_rpow_half : (1 / 2 : ℝ) < (1 / 2 : ℝ) ^ ((1 : ℝ) / 2) := by
  have h := Real.rpow_lt_rpow_of_exponent_gt
    (show (0 : ℝ) < 1 / 2 by norm_num) (show (1 / 2 : ℝ) < 1 by norm_num)
    (show (1 : ℝ) / 2 < 1 by norm_num)
  rwa [Real.rpow_one] at h

/-- Claim C1 (code bug): at `y_true = [0,0,1]`, `y_pred = [0,1,1]` the
per-class true rates are 1/2 and 1, so the geometric mean promised by the
spec and by the function docstring (`sqrt(prod(true_rates))`) is
`(1/2) ** (1/2)`.  The code instead returns 1/2: the
`reshape([len(d), 1])` in line 42 broadcasts the diagonal against the
row-sum vector, producing a CxC matrix whose total product is the C-th
power of the intended one, so the final `** (1/C)` only undoes the
broadcasting and yields the plain product of the true rates. -/
theorem g_score_returns_product_not_geometric_mean :
    g_score [0, 0, 1] [0, 1, 1] none false = .ok ((1 / 2 : ℝ)) ∧
    gScoreSpec [0, 0, 1] [0, 1, 1] = (1 / 2 : ℝ) ^ ((1 : ℝ) / 2) ∧
    g_score [0, 0, 1] [0, 1, 1] none false ≠ .ok (gScoreSpec [0, 0, 1] [0, 1, 1]) := by
  have hlen : (uniqueSorted [0, 0, 1]).length = 2 := by rw [uniqueSorted_001]; rfl
  have hcode : g_score [0, 0, 1] [0, 1, 1] none false = .ok ((1 / 2 : ℝ)) := by
    unfold g_score
    rw [hlen, if_neg (by simp), if_neg (by simp), if_neg (by omega),
      show (none : Option ℚ).getD 0 = 0 from rfl, gProd_bug_input]
    rw [show (((1 / 4 : ℚ) : ℝ)) = (1 / 4 : ℝ) by norm_num,
      show ((1 : ℝ) / ((2 : ℕ) : ℝ)) = (1 : ℝ) / 2 by norm_num,
      one_quarter_rpow_half]
  have hspec : gScoreSpec [0, 0, 1] [0, 1, 1] = (1 / 2 : ℝ) ^ ((1 : ℝ) / 2) := by
    unfold gScoreSpec
    rw [hlen]
    have hp : (∏ i ∈ Finset.range 2,
        (contingency_matrix [0, 0, 1] [0, 1, 1] 0 i i / contRowSum [0, 0, 1] [0, 1, 1] 0 i))
        = 1 / 2 := by
      simp [uniqueSorted_001, uniqueSorted_011, contRowSum, contingency_matrix, pairCount,
        Finset.prod_range_succ, Finset.sum_range_succ, List.count_cons]
      norm_num [Prod.ext_iff]
    rw [hp, show (((1 / 2 : ℚ) : ℝ)) = (1 / 2 : ℝ) by norm_num,
      show ((1 : ℝ) / ((2 : ℕ) : ℝ)) = (1 : ℝ) / 2 by norm_num]
  refine ⟨hcode, hspec, ?_⟩
  rw [hcode, hspec]
  intro h
  have h2 : (1 / 2 : ℝ) = (1 / 2 : ℝ) ^ ((1 : ℝ) / 2) := by
    simpa using h
  exact absurd h2 (ne_of_lt half_lt_half_rpow_half)

/-- Column `i` of the dense one-hot encoding
`OneHotEncoder().fit_transform(y_true.reshape(...)).todense()` used by
`geometric_roc_auc_score`: the indicator of the `i`-th smallest distinct
true label. -/
def oneHotColumn (yt : List ℤ) (i : ℕ) : List ℚ :=
  yt.map (fun t => if t = (uniqueSorted yt).getD i 0 then 1 else 0)

/-- Column `i` of the score matrix, `y_score[:, i]`. -/
def scoreColumn (ys : List (List ℚ)) (i : ℕ) : List ℚ :=
  ys.map (fun row => row.getD i 0)

/-- Per-class areas `classes_auc` of `geometric_roc_auc_score`
(src/skmetrics/classification.py lines 84-89), parametric in the external
capability `aucFn` that computes the one-vs-rest ROC AUC of one binary
indicator column against one score column (`roc_curve` followed by `auc`
in scikit-learn; the spec treats it as an external numeric-library
interface).  The claims settled here do not depend on its values. -/
def classesAuc (aucFn : List ℚ → List ℚ → ℚ) (yt : List ℤ) (ys : List (List ℚ)) : List ℚ :=
  (List.range (uniqueSorted yt).length).map
    (fun i => aucFn (oneHotColumn yt i) (scoreColumn ys i))

/-- Errors raised by `geometric_roc_auc_score`: the IndexError of
`y_score[:, i]` when column `i` does not exist (the ShapeError of the
spec), and the ZeroDivisionError of `1. / n_classes` when there are no
classes. -/
inductive RocErr
  | indexError
  | zeroDivisionError
deriving DecidableEq

/-- Embedding of `geometric_roc_auc_score(y_true, y_score, ...)`
(src/skmetrics/classification.py lines 47-91), parametric in the per-class
AUC capability `aucFn` (which absorbs `pos_label`, `sample_weight`,
`drop_intermediate` and `reorder`).  The loop reads column `i` of
`y_score` for every `i < n_classes` and fails with IndexError as soon as
a row is too short; for a uniform-width array this happens exactly when
the width is smaller than `n_classes`, while extra columns are never
read.  The final score is `np.prod(classes_auc) ** (1. / n_classes)`. -/
noncomputable def geometric_roc_auc_score (aucFn : List ℚ → List ℚ → ℚ)
    (yt : List ℤ) (ys : List (List ℚ)) : Except RocErr ℝ :=
  if (uniqueSorted yt).length = 0 then .error .zeroDivisionError
  else if ys.all (fun row => (uniqueSorted yt).length ≤ row.length) then
    .ok ((((classesAuc aucFn yt ys).prod : ℚ) : ℝ) ^ ((1 : ℝ) / (uniqueSorted yt).length))
  else .error .indexError

/-- Constant-zero AUC capability, used for concrete instantiations (the
structural claims hold for every `aucFn`). -/
def aucZero : List ℚ → List ℚ → ℚ := fun _ _ => 0

/-- Claim C7: whenever `geometric_roc_auc_score` returns a value and one of
the per-class ROC AUC values is 0, the returned aggregate score is 0 (the
zero factor kills the product, and `0 ** (1/C)` is 0). -/
theorem geometric_roc_auc_zero_collapses (aucFn : List ℚ → List ℚ → ℚ)
    (yt : List ℤ) (ys : List (List ℚ)) (g : ℝ)
    (hok : geometric_roc_auc_score aucFn yt ys = .ok g)
    (h0 : (0 : ℚ) ∈ classesAuc aucFn yt ys) : g = 0 := by
  unfold geometric_roc_auc_score at hok
  by_cases hC : (uniqueSorted yt).length = 0
  · rw [if_pos hC] at hok
    cases hok
  · rw [if_neg hC] at hok
    by_cases hall : ys.all (fun row => (uniqueSorted yt).length ≤ row.length)
    · rw [if_pos hall] at hok
      have hprod : (classesAuc aucFn yt ys).prod = 0 := List.prod_eq_zero h0
      have hg : g = (((0 : ℚ) : ℝ)) ^ ((1 : ℝ) / (uniqueSorted yt).length) := by
        injection hok with h
        rw [← h, hprod]
      rw [hg, Rat.cast_zero]
      exact Real.zero_rpow (one_div_ne_zero (Nat.cast_ne_zero.mpr hC))
    · rw [if_neg hall] at hok
      cases hok

/-- Witness for C7: with 2 classes and a capability returning AUC 0 for
every class, the returned score is 0. -/
theorem geometric_roc_auc_zero_collapses_witness :
    geometric_roc_auc_score aucZero [0, 1] [[0, 0], [0, 0]] = .ok 0 := by
  have hok : geometric_roc_auc_score aucZero [0, 1] [[0, 0], [0, 0]] =
      .ok ((((classesAuc aucZero [0, 1] [[0, 0], [0, 0]]).prod : ℚ) : ℝ) ^
        ((1 : ℝ) / (uniqueSorted [0, 1]).length)) := by
    unfold geometric_roc_auc_score
    rw [if_neg (by decide), if_pos (by decide)]
  have hmem : (0 : ℚ) ∈ classesAuc aucZero [0, 1] [[0, 0], [0, 0]] := by decide
  have h := geometric_roc_auc_zero_collapses aucZero [0, 1] [[0, 0], [0, 0]] _ hok hmem
  rw [hok, h]

/-- Claim C4 (amended): with a uniform-width non-empty 2-D `y_score`,
`geometric_roc_auc_score` fails with the IndexError of `y_score[:, i]`
exactly when the width is smaller than the number of distinct true-label
classes; columns beyond the class count are never indexed (see the
counterexample theorem for the width > C case, which returns normally). -/
theorem geometric_roc_auc_missing_columns (aucFn : List ℚ → List ℚ → ℚ)
    (yt : List ℤ) (ys : List (List ℚ)) (K : ℕ) (hne : ys ≠ [])
    (hw : ∀ row ∈ ys, row.length = K) (hK : K < (uniqueSorted yt).length) :
    geometric_roc_auc_score aucFn yt ys = .error .indexError := by
  have hnall : ¬(ys.all (fun row => (uniqueSorted yt).length ≤ row.length) = true) := by
    intro hall
    rcases List.exists_mem_of_ne_nil ys hne with ⟨row, hrow⟩
    have h2 := List.all_eq_true.mp hall row hrow
    have h3 : (uniqueSorted yt).length ≤ row.length := of_decide_eq_true h2
    rw [hw row hrow] at h3
    omega
  unfold geometric_roc_auc_score
  rw [if_neg (by omega), if_neg hnall]

/-- Witness for the amended C4: three classes but only two score columns
fail with the IndexError. -/
theorem geometric_roc_auc_missing_columns_witness :
    geometric_roc_auc_score aucZero [0, 1, 2] [[0, 0], [0, 0]] = .error .indexError :=
  geometric_roc_auc_missing_columns aucZero [0, 1, 2] [[0, 0], [0, 0]] 2 (by simp)
    (by decide) (by decide)

/-- Counterexample for claim C4 as stated: a 2-D `y_score` with 3 columns
against 2 distinct classes does not fail; the loop only reads the first 2
columns and a value is returned. -/
theorem geometric_roc_auc_extra_columns_ok :
    geometric_roc_auc_score aucZero [0, 1] [[0, 0, 0], [0, 0, 0]] = .ok 0 := by
  have hok : geometric_roc_auc_score aucZero [0, 1] [[0, 0, 0], [0, 0, 0]] =
      .ok ((((classesAuc aucZero [0, 1] [[0, 0, 0], [0, 0, 0]]).prod : ℚ) : ℝ) ^
        ((1 : ℝ) / (uniqueSorted [0, 1]).length)) := by
    unfold geometric_roc_auc_score
    rw [if_neg (by decide), if_pos (by decide)]
  have hprod : (classesAuc aucZero [0, 1] [[0, 0, 0], [0, 0, 0]]).prod = 0 := by
    have h2 : uniqueSorted [0, 1] = [0, 1] := by decide
    norm_num [classesAuc, aucZero, h2, List.range_succ]
  rw [hok, hprod, Rat.cast_zero, show (uniqueSorted [0, 1]).length = 2 from by decide,
    Real.zero_rpow (by norm_num)]

/-- Arithmetic mean of a list of finite floats (`np.mean`), NaN on an
empty list. -/
def nfMean (l : List NFloat) : NFloat := nfDivQ (nfSum l) l.length

/-- Division of two float values (`st / sw` elementwise): non-finite when
either operand is, or when the denominator is zero. -/
def nfDivNF : NFloat → NFloat → NFloat
  | some a, some b => if b = 0 then none else some (a / b)
  | _, _ => none

/-- Mean of column `a` of a list of rows (the per-variable mean inside
`np.cov(m, rowvar=0)`). -/
def colMean (rows : List (List ℚ)) (a : ℕ) : ℚ :=
  (rows.map (fun r => r.getD a 0)).sum / (rows.length : ℚ)

/-- Entry `(a, b)` of `np.cov(rows, rowvar=0)` for at least two
observations: sum of products of centred columns over `n - 1`.  With a
single observation the divisor `n - 1` is zero and numpy emits a
RuntimeWarning and produces NaN (it does not raise), modelled by `none`.
(The embedding covers matrices with at least 2 rows, and width-1 matrices
with any number of rows; numpy treats a single row of width at least 2 as
one variable with several observations, a case excluded by the
hypotheses of the theorems below.) -/
def nfCov (rows : List (List ℚ)) (a b : ℕ) : NFloat :=
  if rows.length ≤ 1 then none
  else some (((rows.map (fun r =>
    (r.getD a 0 - colMean rows a) * (r.getD b 0 - colMean rows b))).sum) /
    ((rows.length : ℚ) - 1))

/-- Rows of `y_pred` belonging to true class `c`:
`y_pred[np.where(y_true.T == c)[0]]`. -/
def classRows (yt : List ℤ) (yp : List (List ℚ)) (c : ℤ) : List (List ℚ) :=
  ((yt.zip yp).filter (fun tr => tr.1 = c)).map (fun tr => tr.2)

/-- Embedding of `_scatter_matrices(y_true, y_pred)`
(src/skmetrics/classification.py lines 93-99): the within-class scatter
`sw = np.mean([np.cov(class rows) for c in np.unique(y_true)], axis=0)`
and the total scatter `st = np.cov(y_pred, rowvar=0)`, both as entrywise
functions of the index pair. -/
def scatter_matrices (yt : List ℤ) (yp : List (List ℚ)) :
    (ℕ → ℕ → NFloat) × (ℕ → ℕ → NFloat) :=
  (fun a b => nfMean ((uniqueSorted yt).map (fun c => nfCov (classRows yt yp c) a b)),
   fun a b => nfCov yp a b)

/-- Error type holding the DegenerateInputError that the spec assigns to
`separability_score`; the source contains no raise statement at all, so
the embedding never produces it. -/
inductive SepErr
  | degenerateInputError
deriving DecidableEq

/-- Embedding of `separability_score(y_true, y_pred)`
(src/skmetrics/classification.py lines 102-123) for a `y_pred` of feature
width `p`: `s = st / sw` is the elementwise numpy quotient; for a single
feature the covariances are scalars, `np.isscalar(s)` holds and `s` is
returned directly, otherwise `s` is a matrix and `np.trace(s)` is
returned.  The Python function contains no raise and numpy only warns on
the degenerate divisions, so the error type of the result (the
DegenerateInputError of the spec) is never produced. -/
def separability_score (yt : List ℤ) (yp : List (List ℚ)) (p : ℕ) :
    Except SepErr NFloat :=
  let sw := (scatter_matrices yt yp).1
  let st := (scatter_matrices yt yp).2
  let s := fun a b => nfDivNF (st a b) (sw a b)
  if p = 1 then .ok (s 0 0)
  else .ok (nfSum ((List.range p).map (fun a => s a a)))

/-- Spec-side definition (from the spec wording for `separability_score`):
within-class scatter is the arithmetic mean of the per-class covariance
matrices of the prediction rows partitioned by true class. -/
def withinScatter (yt : List ℤ) (yp : List (List ℚ)) (a b : ℕ) : NFloat :=
  nfMean ((uniqueSorted yt).map (fun c => nfCov (classRows yt yp c) a b))

/-- Spec-side definition: total scatter is the covariance of the full
un-partitioned prediction set. -/
def totalScatter (yp : List (List ℚ)) (a b : ℕ) : NFloat := nfCov yp a b

/-- Spec-side trace of a diagonal: the sum of the first `p` diagonal
entries, written as a primitive recursion (rather than the fold over
`List.range` that the numpy embedding uses). -/
def specTrace (f : ℕ → NFloat) : ℕ → NFloat
  | 0 => some 0
  | n + 1 => nfAdd (specTrace f n) (f n)

lemma nfAdd_assoc (x y z : NFloat) : nfAdd (nfAdd x y) z = nfAdd x (nfAdd y z) := by
  cases x <;> cases y <;> cases z <;> simp [nfAdd, add_assoc]

lemma nfAdd_some_zero (x : NFloat) : nfAdd x (some 0) = x := by
  cases x <;> simp [nfAdd]

lemma nfSum_append (l1 l2 : List NFloat) :
    nfSum (l1 ++ l2) = nfAdd (nfSum l1) (nfSum l2) := by
  induction l1 with
  | nil =>
    simp only [List.nil_append]
    cases h : nfSum l2 <;> simp [nfSum, nfAdd]
  | cons d t ih =>
    rw [List.cons_append, nfSum_cons, ih, nfSum_cons, nfAdd_assoc]

lemma nfSum_range_map (f : ℕ → NFloat) (p : ℕ) :
    nfSum ((List.range p).map f) = specTrace f p := by
  induction p with
  | zero => rfl
  | succ n ih =>
    rw [List.range_succ, List.map_append, nfSum_append, ih, List.map_singleton,
      show nfSum [f n] = nfAdd (f n) (some 0) from rfl, nfAdd_some_zero]
    rfl

/-- Claim C2: `separability_score` returns total scatter divided by
within-class scatter: for a single feature it is the scalar ratio
total/within, and otherwise the matrices are divided elementwise and the
trace of the quotient matrix is returned as the scalar score. -/
theorem separability_ratio_or_trace (yt : List ℤ) (yp : List (List ℚ)) (p : ℕ) :
    (p = 1 → separability_score yt yp p =
      .ok (nfDivNF (totalScatter yp 0 0) (withinScatter yt yp 0 0))) ∧
    (p ≠ 1 → separability_score yt yp p =
      .ok (specTrace
        (fun a => nfDivNF (totalScatter yp a a) (withinScatter yt yp a a)) p)) := by
  constructor
  · intro hp
    subst hp
    rfl
  · intro hp
    unfold separability_score
    rw [if_neg hp, ← nfSum_range_map]
    rfl

/-- Witness for C2: the scalar case at feature width 1 and the trace case
at feature width 2, on concrete inputs. -/
theorem separability_ratio_or_trace_witness :
    separability_score [0, 0, 1, 1] [[1], [2], [5], [6]] 1 =
      .ok (nfDivNF (totalScatter [[1], [2], [5], [6]] 0 0)
        (withinScatter [0, 0, 1, 1] [[1], [2], [5], [6]] 0 0)) ∧
    separability_score [0, 1, 0, 1] [[1, 2], [3, 4], [2, 0], [5, 1]] 2 =
      .ok (specTrace (fun a => nfDivNF (totalScatter [[1, 2], [3, 4], [2, 0], [5, 1]] a a)
        (withinScatter [0, 1, 0, 1] [[1, 2], [3, 4], [2, 0], [5, 1]] a a)) 2) :=
  ⟨(separability_ratio_or_trace [0, 0, 1, 1] [[1], [2], [5], [6]] 1).1 rfl,
   (separability_ratio_or_trace [0, 1, 0, 1] [[1, 2], [3, 4], [2, 0], [5, 1]] 2).2 (by decide)⟩

lemma nfDivNF_none_right (x : NFloat) : nfDivNF x none = none := by
  cases x <;> rfl

lemma nfDivNF_zero_right (x : NFloat) : nfDivNF x (some 0) = none := by
  cases x <;> simp [nfDivNF]

/-- Claim C3 (amended): `separability_score` never fails: the source has
no raise statement and numpy only emits RuntimeWarnings on the
degenerate divisions, so on every aligned input (single-feature, or
matrix-valued with every class holding at least 2 samples, the domain on
which the covariance embedding is faithful) a value is returned
(conjunct 1); and in the degenerate cases that value is the non-finite
float propagated from the division rather than an error: a true class
with fewer than 2 samples makes the within-scatter NaN (conjunct 2), a
zero within-scatter divisor in the scalar case gives Inf/NaN
(conjunct 3), and in the matrix-valued case a zero diagonal
within-scatter entry makes the traced elementwise quotient non-finite
(conjunct 4).  No DegenerateInputError exists anywhere in the code. -/
theorem separability_degenerate_no_raise :
    (∀ (yt : List ℤ) (yp : List (List ℚ)) (p : ℕ),
      yt.length = yp.length → (∀ row ∈ yp, row.length = p) →
      (p = 1 ∨ ∀ c ∈ uniqueSorted yt, 2 ≤ (classRows yt yp c).length) →
      ∃ v, separability_score yt yp p = .ok v) ∧
    (∀ (yt : List ℤ) (yp : List (List ℚ)) (c : ℤ),
      yt.length = yp.length → (∀ row ∈ yp, row.length = 1) →
      c ∈ yt → (classRows yt yp c).length ≤ 1 →
      separability_score yt yp 1 = .ok none) ∧
    (∀ (yt : List ℤ) (yp : List (List ℚ)),
      yt.length = yp.length → (∀ row ∈ yp, row.length = 1) →
      withinScatter yt yp 0 0 = some 0 →
      separability_score yt yp 1 = .ok none) ∧
    (∀ (yt : List ℤ) (yp : List (List ℚ)) (p a : ℕ),
      yt.length = yp.length → (∀ row ∈ yp, row.length = p) →
      a < p → p ≠ 1 → withinScatter yt yp a a = some 0 →
      separability_score yt yp p = .ok none) := by
  refine ⟨?_, ?_, ?_, ?_⟩
  · intro yt yp p _ _ _
    by_cases hp : p = 1
    · subst hp
      exact ⟨_, rfl⟩
    · exact ⟨_, by unfold separability_score; rw [if_neg hp]⟩
  · intro yt yp c _ _ hc h1
    have hcovnone : nfCov (classRows yt yp c) 0 0 = none := by simp [nfCov, h1]
    have hmem : (none : NFloat) ∈
        (uniqueSorted yt).map (fun cl => nfCov (classRows yt yp cl) 0 0) :=
      List.mem_map.mpr ⟨c, mem_uniqueSorted.mpr hc, hcovnone⟩
    have hsw : nfMean ((uniqueSorted yt).map (fun cl => nfCov (classRows yt yp cl) 0 0))
        = none := by
      rw [nfMean, nfSum_eq_none_of_mem hmem]
      rfl
    show Except.ok (nfDivNF (nfCov yp 0 0)
      (nfMean ((uniqueSorted yt).map (fun cl => nfCov (classRows yt yp cl) 0 0)))) = .ok none
    rw [hsw, nfDivNF_none_right]
  · intro yt yp _ _ hsw
    show Except.ok (nfDivNF (nfCov yp 0 0)
      (nfMean ((uniqueSorted yt).map (fun cl => nfCov (classRows yt yp cl) 0 0)))) = .ok none
    have h1 : nfMean ((uniqueSorted yt).map (fun cl => nfCov (classRows yt yp cl) 0 0))
        = some 0 := hsw
    rw [h1, nfDivNF_zero_right]
  · intro yt yp p a _ _ ha hp hsw
    have h1 : (scatter_matrices yt yp).1 a a = some 0 := hsw
    have hmem : (none : NFloat) ∈ (List.range p).map (fun i =>
        nfDivNF ((scatter_matrices yt yp).2 i i) ((scatter_matrices yt yp).1 i i)) := by
      refine List.mem_map.mpr ⟨a, List.mem_range.mpr ha, ?_⟩
      rw [h1, nfDivNF_zero_right]
    unfold separability_score
    rw [if_neg hp, nfSum_eq_none_of_mem hmem]

/-- Counterexample for claim C3 as stated: with true class 0 holding a
single sample, `separability_score` returns a (non-finite) value instead
of failing. -/
theorem separability_singleton_class_returns :
    separability_score [0, 1, 1] [[1], [2], [4]] 1 = .ok none := rfl

lemma classRows_const_scalar_0 :
    classRows [0, 0, 1, 1] [[1], [1], [2], [2]] 0 = [[1], [1]] := by decide

lemma classRows_const_scalar_1 :
    classRows [0, 0, 1, 1] [[1], [1], [2], [2]] 1 = [[2], [2]] := by decide

lemma uniqueSorted_0011 : uniqueSorted [0, 0, 1, 1] = [0, 1] := by decide

lemma withinScatter_const_scalar :
    withinScatter [0, 0, 1, 1] [[1], [1], [2], [2]] 0 0 = some 0 := by
  rw [withinScatter, uniqueSorted_0011, List.map_cons, List.map_cons, List.map_nil,
    classRows_const_scalar_0, classRows_const_scalar_1]
  norm_num [nfCov, colMean, nfMean, nfSum, nfAdd, nfDivQ]

lemma classRows_const_matrix_0 :
    classRows [0, 1, 0, 1] [[1, 5], [2, 6], [1, 7], [2, 8]] 0 = [[1, 5], [1, 7]] := by decide

lemma classRows_const_matrix_1 :
    classRows [0, 1, 0, 1] [[1, 5], [2, 6], [1, 7], [2, 8]] 1 = [[2, 6], [2, 8]] := by decide

lemma uniqueSorted_0101 : uniqueSorted [0, 1, 0, 1] = [0, 1] := by decide

lemma withinScatter_const_matrix :
    withinScatter [0, 1, 0, 1] [[1, 5], [2, 6], [1, 7], [2, 8]] 0 0 = some 0 := by
  rw [withinScatter, uniqueSorted_0101, List.map_cons, List.map_cons, List.map_nil,
    classRows_const_matrix_0, classRows_const_matrix_1]
  norm_num [nfCov, colMean, nfMean, nfSum, nfAdd, nfDivQ]

/-- Witness for the amended C3, exercising all four conjuncts at concrete
inputs: a matrix-valued input with well-formed classes returns a value; a
singleton class at width 1 returns the non-finite marker; a zero
within-scatter divisor at width 1 returns the non-finite marker; a zero
diagonal within-scatter entry at width 2 returns the non-finite marker. -/
theorem separability_degenerate_no_raise_witness :
    (∃ v, separability_score [0, 1, 0, 1] [[1, 5], [2, 6], [1, 7], [2, 8]] 2 = .ok v) ∧
    separability_score [0, 0, 1] [[1], [5], [2]] 1 = .ok none ∧
    separability_score [0, 0, 1, 1] [[1], [1], [2], [2]] 1 = .ok none ∧
    separability_score [0, 1, 0, 1] [[1, 5], [2, 6], [1, 7], [2, 8]] 2 = .ok none :=
  ⟨separability_degenerate_no_raise.1 [0, 1, 0, 1] [[1, 5], [2, 6], [1, 7], [2, 8]] 2
     rfl (by decide) (Or.inr (by decide)),
   separability_degenerate_no_raise.2.1 [0, 0, 1] [[1], [5], [2]] 1
     rfl (by decide) (by decide) (by decide),
   separability_degenerate_no_raise.2.2.1 [0, 0, 1, 1] [[1], [1], [2], [2]]
     rfl (by decide) withinScatter_const_scalar,
   separability_degenerate_no_raise.2.2.2 [0, 1, 0, 1] [[1, 5], [2, 6], [1, 7], [2, 8]] 2 0
     rfl (by decide) (by decide) (by decide) withinScatter_const_matrix⟩
